import Mathlib

/-!
# Verification of the video-streaming converter (`src/converter/convert.py`)

Shallow embedding of the conversion orchestration engine:

* `needs_conversion`, `get_output_path`, and the per-file scan loop of
  `scan_and_convert`, over an explicit filesystem model `FS`
  (`os.path.exists` / `os.path.getmtime`, where `none` models an `OSError`);
* the Quick Sync capability probe inside `convert_video`
  (device check on `/dev/dri`, `ffmpeg -encoders` feature check);
* the transcode runner of `convert_video`: the sequence of statuses written
  by `update_status` (each call publishes one snapshot of the global
  `conversion_status` dict), the progress-stream parsing loop, and the
  terminal completed/error/idle transitions.

Python floats are modelled as rationals; a raised exception at an external
call boundary is modelled as an `Option`/`Except` value.
-/

/-- One snapshot of the global `conversion_status` dict (`convert.py` lines
22-31).  `update_status(**kwargs)` merges the keyword arguments into the dict
and writes it to the status file, so every `update_status` call publishes one
`ConversionStatus` value. -/
structure ConversionStatus where
  active : Bool
  current_file : Option String
  progress : Int
  speed : Option ℚ
  eta : Option Int
  status : String
  method : Option String
deriving DecidableEq, Repr

/-- The initial value of `conversion_status` (module level) and also the value
published by `main`'s initial `update_status` call. -/
def initialStatus : ConversionStatus :=
  { active := false, current_file := none, progress := 0, speed := none,
    eta := none, status := "idle", method := none }

/-- Python `int()` applied to a number: truncation toward zero.  On a
rational in lowest terms this is the truncating division of the numerator by
the denominator. -/
def ratTrunc (q : ℚ) : ℤ := q.num.tdiv q.den

/-! ## Filesystem model and the catalog scanner -/

/-- The filesystem as seen through the two `os.path` calls the scanner makes.
`getmtime p = none` models `os.path.getmtime` raising `OSError` (unstattable
file); `path_exists` models `os.path.exists`, which returns `False` both for
a missing path and for a path whose `stat` fails. -/
structure FS where
  path_exists : String → Bool
  getmtime : String → Option ℚ

/-- Well-formedness of the filesystem model: `os.path.exists` returns true
exactly when `stat` (hence `getmtime`) succeeds. -/
def FSwf (fs : FS) : Prop := ∀ p, fs.path_exists p = true ↔ (fs.getmtime p).isSome

/-- Index of the last occurrence of `c` in `l`. -/
def lastIdxOf (c : Char) (l : List Char) : Option Nat :=
  match l.reverse.findIdx? (· = c) with
  | none => none
  | some k => some (l.length - 1 - k)

/-- `os.path.basename`: the part of the path after the last slash. -/
def basename (p : String) : String :=
  match lastIdxOf '/' p.data with
  | none => p
  | some i => ⟨p.data.drop (i + 1)⟩

/-- The root part of `os.path.splitext p`: everything before the extension
dot.  The extension dot is the last dot of the last path component, ignoring
leading dots of that component. -/
def splitext_root (p : String) : String :=
  let dirLen : Nat :=
    match lastIdxOf '/' p.data with
    | none => 0
    | some i => i + 1
  let base := p.data.drop dirLen
  let lead := (base.takeWhile (· = '.')).length
  let rest := base.drop lead
  match lastIdxOf '.' rest with
  | none => p
  | some j => ⟨p.data.take (dirLen + lead + j)⟩

def INPUT_DIR : String := "/input"
def OUTPUT_DIR : String := "/output"

/-- Python `s.startswith(pre)` / string-prefix test, on the underlying
character lists. -/
def strStartsWith (p pre : String) : Bool := List.isPrefixOf pre.data p.data

/-- `os.path.relpath input_path INPUT_DIR` for the paths produced by walking
`INPUT_DIR` (all of which carry the `/input/` prefix). -/
def relpath_from_input (p : String) : String :=
  if strStartsWith p "/input/" then ⟨p.data.drop 7⟩ else p

/-- `get_output_path` (`convert.py` lines 60-66): mirror the relative path
under `OUTPUT_DIR` and force the `.mp4` extension. -/
def get_output_path (input_path : String) : String :=
  splitext_root (OUTPUT_DIR ++ "/" ++ relpath_from_input input_path) ++ ".mp4"

/-- `needs_conversion` (`convert.py` lines 68-76).  `Except.error ()` models
the uncaught `OSError` that `os.path.getmtime` raises on an unstattable file
(there is no `try`/`except` in the source around these calls). -/
def needs_conversion (fs : FS) (input_path output_path : String) : Except Unit Bool :=
  if fs.path_exists output_path = false then Except.ok true
  else
    match fs.getmtime input_path with
    | none => Except.error ()
    | some input_mtime =>
      match fs.getmtime output_path with
      | none => Except.error ()
      | some output_mtime => Except.ok (decide (output_mtime < input_mtime))

/-! ## Capability probe (`convert.py` lines 117-160) -/

/-- The host environment visible to the Quick Sync probe.
`dri_entries` is `os.listdir '/dev/dri'` (meaningful when `dri_exists`);
`encoders_output = none` models `subprocess.run(['ffmpeg','-hide_banner',
'-encoders'])` raising (missing binary, timeout) — the probe catches that
exception, so probing itself never throws. -/
structure ProbeEnv where
  renderD128_exists : Bool
  dri_exists : Bool
  dri_entries : List String
  encoders_output : Option String
deriving DecidableEq

/-- Substring test on character lists (Python's `in` on strings). -/
def hasSubChars (n : List Char) : List Char → Bool
  | [] => n.isEmpty
  | c :: t => List.isPrefixOf n (c :: t) || hasSubChars n t

/-- Python `n in h` for strings. -/
def hasSubstr (n h : String) : Bool := hasSubChars n.data h.data

/-- The device check (`convert.py` lines 121-136): `/dev/dri/renderD128`
present, or failing that any `renderD*` entry under `/dev/dri`. -/
def device_ok (e : ProbeEnv) : Bool :=
  if e.renderD128_exists then true
  else if e.dri_exists then
    !(e.dri_entries.filter (fun f => strStartsWith f "renderD")).isEmpty
  else false

/-- The full probe result `use_qsv` (`convert.py` lines 117-154): the device
check, then `'h264_qsv' in (ffmpeg -hide_banner -encoders).stdout`, with any
exception from the encoder check swallowed (leaving `use_qsv` false). -/
def use_qsv (e : ProbeEnv) : Bool :=
  device_ok e &&
    (match e.encoders_output with
     | some s => hasSubstr "h264_qsv" s
     | none => false)

/-- Modelled from the spec (for comparison with `device_ok`): "at least one
accelerator device node is present in the expected device directory". -/
def spec_device_present (e : ProbeEnv) : Prop :=
  e.dri_exists = true ∧ ∃ f ∈ e.dri_entries, strStartsWith f "renderD" = true

/-- Modelled from the spec (for comparison with `use_qsv`): "the external
encoder binary advertises the hardware codec in its compiled feature list". -/
def spec_codec_advertised (e : ProbeEnv) : Prop :=
  ∃ s, e.encoders_output = some s ∧ hasSubstr "h264_qsv" s = true

/-- Consistency of the probe environment: if the specific node
`/dev/dri/renderD128` exists then `/dev/dri` exists and lists it. -/
def ProbeWF (e : ProbeEnv) : Prop :=
  e.renderD128_exists = true → e.dri_exists = true ∧ "renderD128" ∈ e.dri_entries

/-- The ffmpeg invocation built by `convert_video` (`convert.py` lines
163-203): hardware (QSV) profile or software (libx264) profile. -/
def ffmpeg_cmd (useQsv : Bool) (input_path output_path : String) : List String :=
  if useQsv then
    ["ffmpeg",
     "-init_hw_device", "qsv=hw:/dev/dri/renderD128",
     "-i", input_path,
     "-vf", "format=nv12,hwupload=extra_hw_frames=64",
     "-c:v", "h264_qsv",
     "-preset", "medium",
     "-global_quality", "23",
     "-look_ahead", "1",
     "-c:a", "aac",
     "-b:a", "192k",
     "-movflags", "+faststart",
     "-profile:v", "high",
     "-level", "4.0",
     "-y",
     "-progress", "pipe:1",
     "-loglevel", "warning",
     output_path]
  else
    ["ffmpeg",
     "-i", input_path,
     "-c:v", "libx264",
     "-preset", "medium",
     "-crf", "23",
     "-c:a", "aac",
     "-b:a", "192k",
     "-movflags", "+faststart",
     "-pix_fmt", "yuv420p",
     "-profile:v", "high",
     "-level", "4.0",
     "-y",
     "-progress", "pipe:1",
     "-loglevel", "error",
     output_path]

/-! ## Transcode runner (`convert.py` lines 88-287) -/

/-- One line of the encoder's progress channel, after the parsing that the
loop body performs.  `outTime v` is a line `out_time_ms=X` whose payload
parses as the float `v`; `speedVal v` is a line `speed=Yx` whose payload
(after stripping the `x`) parses as the float `v`; `other` is every other
line — blank, without `=`, an unrecognized key, or a payload on which
`float()` raises (the loop body swallows that exception before any
`update_status` call). -/
inductive FFLine
  | outTime (v : ℚ)
  | speedVal (v : ℚ)
  | other
deriving DecidableEq

/-- The `out_time_ms` values of a progress stream, in order. -/
def outTimes : List FFLine → List ℚ
  | [] => []
  | FFLine.outTime v :: ls => v :: outTimes ls
  | _ :: ls => outTimes ls

/-- The progress-reading loop of `convert_video` (`convert.py` lines
212-234).  State: the current `conversion_status` snapshot, the `out_time`
accumulator (seconds), and the list of snapshots published so far.  Returns
the final snapshot, the final `out_time`, and the published snapshots in
order. -/
def run_lines (dur : Option ℚ) : List FFLine → ConversionStatus → ℚ →
    ConversionStatus × ℚ × List ConversionStatus
  | [], st, t => (st, t, [])
  | FFLine.outTime v :: ls, st, _t =>
    -- out_time = out_time_ms / 1000000.0 ; published iff duration and duration > 0
    let t' := v / 1000000
    (match dur with
     | some d =>
       if 0 < d then
         let st' := { st with progress := min 100 (ratTrunc (t' / d * 100)) }
         let r := run_lines dur ls st' t'
         (r.1, r.2.1, st' :: r.2.2)
       else run_lines dur ls st t'
     | none => run_lines dur ls st t')
  | FFLine.speedVal v :: ls, st, t =>
    -- update_status(speed=speed) always; eta only if duration and speed > 0 and out_time > 0
    let st1 := { st with speed := some v }
    (match dur with
     | some d =>
       if d ≠ 0 ∧ 0 < v ∧ 0 < t then
         let st2 := { st1 with eta := some (ratTrunc (max 0 ((d - t) / v))) }
         let r := run_lines dur ls st2 t
         (r.1, r.2.1, st1 :: st2 :: r.2.2)
       else
         let r := run_lines dur ls st1 t
         (r.1, r.2.1, st1 :: r.2.2)
     | none =>
       let r := run_lines dur ls st1 t
       (r.1, r.2.1, st1 :: r.2.2))
  | FFLine.other :: ls, st, t => run_lines dur ls st t

/-- The external outcomes of one `convert_video` call: the probe environment,
the `ffprobe` duration (`none` when the probe or `float()` raised), whether
`subprocess.Popen` succeeded, the parsed progress stream, and the encoder's
exit code (meaningful when `launch_ok`). -/
structure RunEnv where
  probe : ProbeEnv
  duration : Option ℚ
  launch_ok : Bool
  lines : List FFLine
  exit_code : Int
deriving DecidableEq

/-- `convert_video` (`convert.py` lines 88-287): returns the list of
published `ConversionStatus` snapshots, in order, and the boolean return
value.  `prev` is the `conversion_status` dict as the call begins (fields not
named by an `update_status` call carry over). -/
def convert_video (prev : ConversionStatus) (filename : String) (env : RunEnv) :
    List ConversionStatus × Bool :=
  -- update_status(active=True, current_file=filename, progress=0,
  --               speed=None, eta=None, status="starting")
  let p1 : ConversionStatus :=
    { prev with
      active := true, current_file := some filename, progress := 0,
      speed := none, eta := none, status := "starting" }
  -- update_status(method="qsv") / update_status(method="software")
  let p2 : ConversionStatus :=
    { p1 with method := some (if use_qsv env.probe then "qsv" else "software") }
  if env.launch_ok then
    -- update_status(status="converting")
    let p3 : ConversionStatus := { p2 with status := "converting" }
    let r := run_lines env.duration env.lines p3 0
    if env.exit_code = 0 then
      -- update_status(active=False, current_file=None, progress=100,
      --               status="completed", method=None)
      let pComp : ConversionStatus :=
        { r.1 with
          active := false, current_file := none, progress := 100,
          status := "completed", method := none }
      -- update_status(active=False, current_file=None, progress=0,
      --               status="idle", method=None)
      let pIdle : ConversionStatus :=
        { pComp with
          active := false, current_file := none, progress := 0,
          status := "idle", method := none }
      (p1 :: p2 :: p3 :: r.2.2 ++ [pComp, pIdle], true)
    else
      -- raise CalledProcessError → update_status(... status="error" ...);
      -- update_status(status="idle", method=None)
      let pErr : ConversionStatus :=
        { r.1 with
          active := false, current_file := none, progress := 0,
          status := "error", method := none }
      let pIdle : ConversionStatus := { pErr with status := "idle", method := none }
      (p1 :: p2 :: p3 :: r.2.2 ++ [pErr, pIdle], false)
  else
    -- Popen raised → generic except branch, before status="converting"
    let pErr : ConversionStatus :=
      { p2 with
        active := false, current_file := none, progress := 0,
        status := "error", method := none }
    let pIdle : ConversionStatus := { pErr with status := "idle", method := none }
    ([p1, p2, pErr, pIdle], false)

/-- The per-file loop of `scan_and_convert` (`convert.py` lines 301-307) over
an already-enumerated candidate list (the result of `get_video_files`, the
sorted `os.walk` pass, which stats nothing).  `envOf` gives each file's
external conversion outcomes.  The result pairs each examined file with
`none` (skipped: `needs_conversion` false) or `some b` (converted with
`convert_video` result `b`); `Except.error ()` is the uncaught `OSError`
from `needs_conversion` aborting the pass. -/
def scan_loop (fs : FS) (envOf : String → RunEnv) :
    List String → ConversionStatus → Except Unit (ConversionStatus × List (String × Option Bool))
  | [], st => Except.ok (st, [])
  | f :: rest, st =>
    match needs_conversion fs f (get_output_path f) with
    | Except.error e => Except.error e
    | Except.ok true =>
      let r := convert_video st (basename f) (envOf f)
      (match scan_loop fs envOf rest (r.1.getLastD st) with
       | Except.error e => Except.error e
       | Except.ok (st', res) => Except.ok (st', (f, some r.2) :: res))
    | Except.ok false =>
      match scan_loop fs envOf rest st with
      | Except.error e => Except.error e
      | Except.ok (st', res) => Except.ok (st', (f, none) :: res)

/-! ## Concrete fixtures used by the witness and counterexample theorems -/

/-- A small filesystem: one input file (mtime 3) with an existing, newer
output (mtime 5). -/
def mtimesW (p : String) : Option ℚ :=
  if p = "/input/a.avi" then some 3 else if p = "/output/a.mp4" then some 5 else none

def fsW : FS := { path_exists := fun p => (mtimesW p).isSome, getmtime := mtimesW }

/-- A filesystem where `/input/bad.avi` has an existing output but its own
`stat` fails (permission denied), while `/input/good.avi` has no output. -/
def mtimes2 (p : String) : Option ℚ :=
  if p = "/output/bad.mp4" then some 5 else none

def fs2 : FS := { path_exists := fun p => (mtimes2 p).isSome, getmtime := mtimes2 }

/-- A filesystem on which every candidate needs conversion (no outputs). -/
def fsEmpty : FS := { path_exists := fun _ => false, getmtime := fun _ => none }

/-- Probe environment of a host with no accelerator and no QSV ffmpeg. -/
def probeSW : ProbeEnv :=
  { renderD128_exists := false, dri_exists := false, dri_entries := [],
    encoders_output := none }

/-- Probe environment of a host with `/dev/dri/renderD128` and a QSV-capable
ffmpeg build. -/
def probeHW : ProbeEnv :=
  { renderD128_exists := true, dri_exists := true, dri_entries := ["renderD128"],
    encoders_output := some "V..... h264_qsv" }

/-- A successful software conversion with a 10-second duration and an empty
progress stream. -/
def envOkNoLines : RunEnv :=
  { probe := probeSW, duration := some 10, launch_ok := true, lines := [],
    exit_code := 0 }

/-- A successful hardware (QSV) conversion. -/
def envOkHW : RunEnv :=
  { probe := probeHW, duration := some 10, launch_ok := true, lines := [],
    exit_code := 0 }

/-- A successful conversion of a 10-second file whose progress stream reports
9.96 encoded seconds. -/
def envOkPartial : RunEnv :=
  { probe := probeSW, duration := some 10, launch_ok := true,
    lines := [FFLine.outTime 9960000], exit_code := 0 }

/-- A conversion whose encoder exits with code 1. -/
def envFail : RunEnv :=
  { probe := probeSW, duration := some 10, launch_ok := true, lines := [],
    exit_code := 1 }

/-- A conversion whose duration probe failed. -/
def envNoDur : RunEnv :=
  { probe := probeSW, duration := none, launch_ok := true,
    lines := [FFLine.outTime 5000000, FFLine.speedVal 2], exit_code := 0 }

def envAll : String → RunEnv := fun _ => envOkNoLines

/-- The first snapshot published by `convert_video` for file `a.avi` starting
from `initialStatus` (used to instantiate universally quantified claims). -/
def p1Fix : ConversionStatus :=
  { active := true, current_file := some "a.avi", progress := 0, speed := none,
    eta := none, status := "starting", method := none }

/-! ## Sanity checks on the embedding -/

example : get_output_path "/input/a/b.avi" = "/output/a/b.mp4" := by decide
example : basename "/input/a/b.avi" = "b.avi" := by decide
example : ratTrunc (996 / 10 : ℚ) = 99 := by with_unfolding_all decide
example : ratTrunc (-996 / 10 : ℚ) = -99 := by with_unfolding_all decide
example : hasSubstr "h264_qsv" "V..... h264_qsv Intel" = true := by decide
example : use_qsv probeHW = true := by decide
example : use_qsv probeSW = false := by decide

/-! ## Helper lemmas -/

/-- On a non-negative rational, Python truncation agrees with the floor. -/
theorem ratTrunc_eq_floor {q : ℚ} (h : 0 ≤ q) : ratTrunc q = ⌊q⌋ := by
  rw [ratTrunc, Rat.floor_def]
  exact Int.tdiv_eq_ediv (Rat.num_nonneg.mpr h) (Int.ofNat_nonneg _)

theorem ratTrunc_nonneg {q : ℚ} (h : 0 ≤ q) : 0 ≤ ratTrunc q := by
  rw [ratTrunc_eq_floor h]
  exact Int.floor_nonneg.mpr h

theorem ratTrunc_mono_of_nonneg {a b : ℚ} (ha : 0 ≤ a) (hab : a ≤ b) :
    ratTrunc a ≤ ratTrunc b := by
  rw [ratTrunc_eq_floor ha, ratTrunc_eq_floor (ha.trans hab)]
  exact Int.floor_le_floor hab

/-- The device check agrees with the spec's reading "at least one accelerator
device node is present in the expected device directory", for any consistent
probe environment. -/
theorem device_ok_iff_spec (e : ProbeEnv) (hwf : ProbeWF e) :
    device_ok e = true ↔ spec_device_present e := by
  cases h128 : e.renderD128_exists with
  | true =>
    obtain ⟨hd, hm⟩ := hwf h128
    have h1 : device_ok e = true := by simp [device_ok, h128]
    rw [h1]
    exact iff_of_true rfl ⟨hd, "renderD128", hm, by decide⟩
  | false =>
    cases hd : e.dri_exists with
    | true =>
      have h1 : device_ok e =
          !(e.dri_entries.filter (fun f => strStartsWith f "renderD")).isEmpty := by
        simp [device_ok, h128, hd]
      rw [h1]
      unfold spec_device_present
      simp only [hd, eq_self_iff_true, true_and, Bool.not_eq_true',
        List.isEmpty_eq_false, ne_eq]
      constructor
      · intro h
        obtain ⟨f, hf⟩ := List.exists_mem_of_ne_nil _ h
        have hmem := List.mem_filter.mp hf
        exact ⟨f, hmem.1, hmem.2⟩
      · rintro ⟨f, hf, hpf⟩
        intro hnil
        have hfin : f ∈ e.dri_entries.filter (fun f => strStartsWith f "renderD") :=
          List.mem_filter.mpr ⟨hf, hpf⟩
        rw [hnil] at hfin
        exact absurd hfin (List.not_mem_nil f)
    | false =>
      have h1 : device_ok e = false := by simp [device_ok, h128, hd]
      rw [h1]
      unfold spec_device_present
      simp [hd]

/-! ## C1: needs_conversion against the spec's mtime rule -/

/-- C1: for every input path and output path whose metadata is readable, the
`needs_conversion` check returns true iff the output path does not exist or
the input's modification time is strictly newer than the output's; in
particular, whenever the output's mtime is at least the input's, it returns
false. -/
theorem needs_conversion_agrees_spec (fs : FS) (hwf : FSwf fs)
    (input_path output_path : String) (im : ℚ)
    (hi : fs.getmtime input_path = some im) :
    (needs_conversion fs input_path output_path = Except.ok true ↔
      (fs.path_exists output_path = false ∨
        ∃ om, fs.getmtime output_path = some om ∧ om < im)) ∧
    (∀ om, fs.getmtime output_path = some om → im ≤ om →
      needs_conversion fs input_path output_path = Except.ok false) := by
  cases hex : fs.path_exists output_path with
  | false =>
    have hval : needs_conversion fs input_path output_path = Except.ok true := by
      unfold needs_conversion
      rw [hex]
      simp
    constructor
    · rw [hval]
      exact iff_of_true rfl (Or.inl rfl)
    · intro om hom _
      have htrue : fs.path_exists output_path = true := (hwf output_path).mpr (by simp [hom])
      rw [hex] at htrue
      exact absurd htrue (by decide)
  | true =>
    have hsome : (fs.getmtime output_path).isSome = true := (hwf output_path).mp hex
    obtain ⟨om, hom⟩ := Option.isSome_iff_exists.mp hsome
    have hval : needs_conversion fs input_path output_path =
        Except.ok (decide (om < im)) := by
      unfold needs_conversion
      rw [hex, hi, hom]
      simp
    constructor
    · rw [hval]
      constructor
      · intro h
        exact Or.inr ⟨om, hom, of_decide_eq_true (Except.ok.inj h)⟩
      · rintro (h | ⟨om', hom', hlt⟩)
        · exact absurd h (by decide)
        · rw [hom] at hom'
          cases Option.some.inj hom'
          rw [decide_eq_true hlt]
    · intro om' hom' hle
      rw [hom] at hom'
      cases Option.some.inj hom'
      rw [hval, decide_eq_false (not_lt.mpr hle)]

/-- Witness for C1: on the concrete filesystem `fsW` (input mtime 3,
output mtime 5 ≥ 3) the check returns false. -/
theorem needs_conversion_agrees_spec_witness :
    FSwf fsW ∧ needs_conversion fsW "/input/a.avi" "/output/a.mp4" = Except.ok false :=
  ⟨fun _ => Iff.rfl,
    (needs_conversion_agrees_spec fsW (fun _ => Iff.rfl) "/input/a.avi" "/output/a.mp4" 3
      (by decide)).2 5 (by decide) (by decide)⟩

/-! ## C3: the capability probe -/

/-- C3: the probe selects the hardware (QSV) profile iff an accelerator
device node is present in `/dev/dri` and the ffmpeg build advertises the
`h264_qsv` codec; when no device is present the software profile is selected
and the built command contains no hardware-initialization argument (the only
way `-init_hw_device` can appear in the software command is as one of the two
caller-supplied paths).  Exceptions from the probe's external calls are
modelled as values (`encoders_output = none`), so probing is total: it never
throws on missing devices or binaries. -/
theorem use_qsv_agrees_spec (e : ProbeEnv) (hwf : ProbeWF e) :
    (use_qsv e = true ↔ spec_device_present e ∧ spec_codec_advertised e) ∧
    (¬ spec_device_present e →
      use_qsv e = false ∧
      ∀ input_path output_path,
        "-init_hw_device" ∈ ffmpeg_cmd (use_qsv e) input_path output_path →
          "-init_hw_device" = input_path ∨ "-init_hw_device" = output_path) := by
  have hdev := device_ok_iff_spec e hwf
  constructor
  · unfold use_qsv
    rw [Bool.and_eq_true]
    constructor
    · rintro ⟨h1, h2⟩
      refine ⟨hdev.mp h1, ?_⟩
      cases henc : e.encoders_output with
      | none => rw [henc] at h2; exact absurd h2 (by decide)
      | some s =>
        rw [henc] at h2
        exact ⟨s, henc, h2⟩
    · rintro ⟨h1, s, hs, hsub⟩
      refine ⟨hdev.mpr h1, ?_⟩
      rw [hs]
      exact hsub
  · intro hnd
    have h0 : device_ok e = false := by
      cases h : device_ok e with
      | false => rfl
      | true => exact absurd (hdev.mp h) hnd
    have hq : use_qsv e = false := by
      unfold use_qsv
      rw [h0, Bool.false_and]
    refine ⟨hq, ?_⟩
    intro input_path output_path hmem
    rw [hq] at hmem
    unfold ffmpeg_cmd at hmem
    simp only [if_neg (by decide : ¬(false = true)), List.mem_cons,
      List.not_mem_nil, or_false] at hmem
    simp at hmem
    exact hmem

/-- Witness for C3: the consistent hardware host `probeHW` satisfies both
sides of the equivalence, and the equivalence is the theorem's. -/
theorem use_qsv_agrees_spec_witness :
    ProbeWF probeHW ∧
      (use_qsv probeHW = true ↔ spec_device_present probeHW ∧ spec_codec_advertised probeHW) :=
  ⟨by unfold ProbeWF; decide,
    (use_qsv_agrees_spec probeHW (by unfold ProbeWF; decide)).1⟩

/-- The progress loop only ever touches `progress`, `speed` and `eta`: the
`active`, `current_file`, `status` and `method` fields of every published
snapshot and of the final state are those of the entry state. -/
theorem run_lines_fields (dur : Option ℚ) (ls : List FFLine) (st : ConversionStatus) (t : ℚ) :
    (∀ s ∈ (run_lines dur ls st t).2.2,
      s.active = st.active ∧ s.status = st.status ∧
      s.current_file = st.current_file ∧ s.method = st.method) ∧
    ((run_lines dur ls st t).1.active = st.active ∧
     (run_lines dur ls st t).1.status = st.status ∧
     (run_lines dur ls st t).1.current_file = st.current_file ∧
     (run_lines dur ls st t).1.method = st.method) := by
  induction ls generalizing st t with
  | nil => simp [run_lines]
  | cons l ls ih =>
    cases l with
    | outTime v =>
      cases dur with
      | none => simpa only [run_lines] using ih st (v / 1000000)
      | some d =>
        by_cases hd : 0 < d
        · simp only [run_lines, if_pos hd]
          refine ⟨?_, (ih _ _).2⟩
          intro s hs
          rcases List.mem_cons.mp hs with h | h
          · subst h; exact ⟨rfl, rfl, rfl, rfl⟩
          · have hh := (ih _ _).1 s h
            exact hh
        · simpa only [run_lines, if_neg hd] using ih st (v / 1000000)
    | speedVal v =>
      cases dur with
      | none =>
        simp only [run_lines]
        refine ⟨?_, (ih _ _).2⟩
        intro s hs
        rcases List.mem_cons.mp hs with h | h
        · subst h; exact ⟨rfl, rfl, rfl, rfl⟩
        · have hh := (ih _ _).1 s h
          exact hh
      | some d =>
        by_cases hc : d ≠ 0 ∧ 0 < v ∧ 0 < t
        · simp only [run_lines, if_pos hc]
          refine ⟨?_, (ih _ _).2⟩
          intro s hs
          rcases List.mem_cons.mp hs with h | h
          · subst h; exact ⟨rfl, rfl, rfl, rfl⟩
          · rcases List.mem_cons.mp h with h' | h'
            · subst h'; exact ⟨rfl, rfl, rfl, rfl⟩
            · have hh := (ih _ _).1 s h'
              exact hh
        · simp only [run_lines, if_neg hc]
          refine ⟨?_, (ih _ _).2⟩
          intro s hs
          rcases List.mem_cons.mp hs with h | h
          · subst h; exact ⟨rfl, rfl, rfl, rfl⟩
          · have hh := (ih _ _).1 s h
            exact hh
    | other => simpa only [run_lines] using ih st t

/-- With an unknown duration the loop never updates `progress` or `eta`:
both keep the entry state's values in every published snapshot and in the
final state. -/
theorem run_lines_none_dur (ls : List FFLine) (st : ConversionStatus) (t : ℚ) :
    (∀ s ∈ (run_lines none ls st t).2.2,
      s.progress = st.progress ∧ s.eta = st.eta) ∧
    ((run_lines none ls st t).1.progress = st.progress ∧
     (run_lines none ls st t).1.eta = st.eta) := by
  induction ls generalizing st t with
  | nil => simp [run_lines]
  | cons l ls ih =>
    cases l with
    | outTime v => simpa only [run_lines] using ih st (v / 1000000)
    | speedVal v =>
      simp only [run_lines]
      refine ⟨?_, (ih _ _).2⟩
      intro s hs
      rcases List.mem_cons.mp hs with h | h
      · subst h; exact ⟨rfl, rfl⟩
      · have hh := (ih _ _).1 s h
        exact hh
    | other => simpa only [run_lines] using ih st t

/-- Every `out_time_ms` line of the stream gives rise, when the duration is
known and positive, to a published snapshot carrying exactly the truncated
percentage `min 100 (ratTrunc (v / 1000000 / d * 100))` (and the entry
state's `status`). -/
theorem run_lines_outTime_pub (d : ℚ) (hd : 0 < d) (ls : List FFLine)
    (st : ConversionStatus) (t v : ℚ) (hv : FFLine.outTime v ∈ ls) :
    ∃ s ∈ (run_lines (some d) ls st t).2.2,
      s.status = st.status ∧ s.progress = min 100 (ratTrunc (v / 1000000 / d * 100)) := by
  induction ls generalizing st t with
  | nil => exact absurd hv (List.not_mem_nil _)
  | cons l ls ih =>
    rcases List.mem_cons.mp hv with h | h
    · subst h
      simp only [run_lines, if_pos hd]
      exact ⟨_, List.mem_cons_self _ _, rfl, rfl⟩
    · cases l with
      | outTime w =>
        simp only [run_lines, if_pos hd]
        obtain ⟨s, hs, hst, hpr⟩ := ih _ _ h
        exact ⟨s, List.mem_cons_of_mem _ hs, hst, hpr⟩
      | speedVal w =>
        by_cases hc : d ≠ 0 ∧ 0 < w ∧ 0 < t
        · simp only [run_lines, if_pos hc]
          obtain ⟨s, hs, hst, hpr⟩ := ih _ _ h
          exact ⟨s, List.mem_cons_of_mem _ (List.mem_cons_of_mem _ hs), hst, hpr⟩
        · simp only [run_lines, if_neg hc]
          obtain ⟨s, hs, hst, hpr⟩ := ih _ _ h
          exact ⟨s, List.mem_cons_of_mem _ hs, hst, hpr⟩
      | other =>
        simp only [run_lines]
        exact ih _ _ h

/-- Progress invariant of the loop: if the `out_time_ms` values still to be
read are bounded below by the current `out_time` and non-decreasing, and the
entry progress is within bounds and (when the duration is known positive)
equal to the truncated percentage of the current `out_time`, then the
published progress values, prefixed with the entry progress, form a
non-decreasing chain, and each lies in `[0, 100]`. -/
theorem run_lines_progress_inv (dur : Option ℚ) (ls : List FFLine)
    (st : ConversionStatus) (t : ℚ) (ht : 0 ≤ t)
    (hch : List.Chain' (· ≤ ·) (t * 1000000 :: outTimes ls))
    (hb0 : 0 ≤ st.progress) (hb1 : st.progress ≤ 100)
    (hrel : ∀ d, dur = some d → 0 < d → st.progress = min 100 (ratTrunc (t / d * 100))) :
    List.Chain' (· ≤ ·)
      (st.progress :: ((run_lines dur ls st t).2.2).map ConversionStatus.progress) ∧
    ∀ s ∈ (run_lines dur ls st t).2.2, 0 ≤ s.progress ∧ s.progress ≤ 100 := by
  induction ls generalizing st t with
  | nil => simp [run_lines]
  | cons l ls ih =>
    cases l with
    | outTime v =>
      simp only [outTimes] at hch
      rw [List.chain'_cons] at hch
      obtain ⟨htv, hch'⟩ := hch
      have htt' : t ≤ v / 1000000 := (le_div_iff₀ (by norm_num)).mpr htv
      have ht' : 0 ≤ v / 1000000 := ht.trans htt'
      have hch'' : List.Chain' (· ≤ ·) (v / 1000000 * 1000000 :: outTimes ls) := by
        rwa [div_mul_cancel₀ v (by norm_num : (1000000:ℚ) ≠ 0)]
      cases dur with
      | none =>
        simp only [run_lines]
        exact ih st (v / 1000000) ht' hch'' hb0 hb1 (fun d h => by simp at h)
      | some d =>
        by_cases hd : 0 < d
        · simp only [run_lines, if_pos hd]
          have hq0 : (0:ℚ) ≤ v / 1000000 / d * 100 := by positivity
          have hb0' : (0:ℤ) ≤ min 100 (ratTrunc (v / 1000000 / d * 100)) :=
            le_min (by norm_num) (ratTrunc_nonneg hq0)
          have hb1' : min (100:ℤ) (ratTrunc (v / 1000000 / d * 100)) ≤ 100 :=
            min_le_left _ _
          have hih := ih { st with progress := min 100 (ratTrunc (v / 1000000 / d * 100)) }
            (v / 1000000) ht' hch'' hb0' hb1'
            (fun d' h hp => by cases Option.some.inj h; rfl)
          refine ⟨?_, ?_⟩
          · rw [List.map_cons, List.chain'_cons]
            refine ⟨?_, hih.1⟩
            rw [hrel d rfl hd]
            refine min_le_min le_rfl ?_
            exact ratTrunc_mono_of_nonneg (by positivity) (by gcongr)
          · intro s hs
            rcases List.mem_cons.mp hs with h | h
            · subst h; exact ⟨hb0', hb1'⟩
            · exact hih.2 s h
        · simp only [run_lines, if_neg hd]
          exact ih st (v / 1000000) ht' hch'' hb0 hb1
            (fun d' h hp => by cases Option.some.inj h; exact absurd hp hd)
    | speedVal v =>
      simp only [outTimes] at hch
      cases dur with
      | none =>
        simp only [run_lines]
        have hih := ih { st with speed := some v } t ht hch hb0 hb1
          (fun d h => by simp at h)
        refine ⟨?_, ?_⟩
        · rw [List.map_cons, List.chain'_cons]
          exact ⟨le_rfl, hih.1⟩
        · intro s hs
          rcases List.mem_cons.mp hs with h | h
          · subst h; exact ⟨hb0, hb1⟩
          · exact hih.2 s h
      | some d =>
        by_cases hc : d ≠ 0 ∧ 0 < v ∧ 0 < t
        · simp only [run_lines, if_pos hc]
          have hih := ih
            { st with speed := some v, eta := some (ratTrunc (max 0 ((d - t) / v))) } t
            ht hch hb0 hb1 (fun d' h hp => hrel d' h hp)
          refine ⟨?_, ?_⟩
          · rw [List.map_cons, List.map_cons, List.chain'_cons, List.chain'_cons]
            exact ⟨le_rfl, le_rfl, hih.1⟩
          · intro s hs
            rcases List.mem_cons.mp hs with h | h
            · subst h; exact ⟨hb0, hb1⟩
            · rcases List.mem_cons.mp h with h' | h'
              · subst h'; exact ⟨hb0, hb1⟩
              · exact hih.2 s h'
        · simp only [run_lines, if_neg hc]
          have hih := ih { st with speed := some v } t ht hch hb0 hb1
            (fun d' h hp => hrel d' h hp)
          refine ⟨?_, ?_⟩
          · rw [List.map_cons, List.chain'_cons]
            exact ⟨le_rfl, hih.1⟩
          · intro s hs
            rcases List.mem_cons.mp hs with h | h
            · subst h; exact ⟨hb0, hb1⟩
            · exact hih.2 s h
    | other =>
      simp only [outTimes] at hch
      simp only [run_lines]
      exact ih st t ht hch hb0 hb1 hrel

/-- The last element of a `convert_video`-shaped trace. -/
theorem getLast?_cons3_append2 {α : Type} (a b c x y : α) (tr : List α) :
    (a :: b :: c :: (tr ++ [x, y])).getLast? = some y := by
  rw [show a :: b :: c :: (tr ++ [x, y]) = (a :: b :: c :: (tr ++ [x])) ++ [y] by simp]
  exact List.getLast?_concat _

/-! ## C6: active iff starting/converting; terminal idle -/

/-- C6: in every snapshot published by `convert_video`, `active` is true iff
`status` is `starting` or `converting`; and the last snapshot of any run —
success, encoder failure or launch failure — is `idle` with `active` false.
(The initial snapshot `initialStatus` published by `main` also satisfies the
equivalence: it is `idle` with `active` false by definition.) -/
theorem convert_video_active_iff (prev : ConversionStatus) (fn : String) (env : RunEnv) :
    (∀ s ∈ (convert_video prev fn env).1,
      (s.active = true ↔ (s.status = "starting" ∨ s.status = "converting"))) ∧
    (∃ l, ((convert_video prev fn env).1).getLast? = some l ∧
      l.status = "idle" ∧ l.active = false) := by
  unfold convert_video
  cases hl : env.launch_ok with
  | false =>
    simp only [Bool.false_eq_true, if_false]
    constructor
    · intro s hs
      simp only [List.mem_cons, List.not_mem_nil, or_false] at hs
      rcases hs with rfl | rfl | rfl | rfl <;> simp
    · exact ⟨_, rfl, rfl, rfl⟩
  | true =>
    simp only [if_true]
    by_cases he : env.exit_code = 0
    · simp only [if_pos he]
      constructor
      · intro s hs
        rcases List.mem_cons.mp hs with rfl | hs
        · simp
        rcases List.mem_cons.mp hs with rfl | hs
        · simp
        rcases List.mem_cons.mp hs with rfl | hs
        · simp
        rcases List.mem_append.mp hs with hs | hs
        · obtain ⟨ha, hst, -, -⟩ := (run_lines_fields env.duration env.lines _ 0).1 s hs
          rw [ha, hst]
          simp
        · simp only [List.mem_cons, List.not_mem_nil, or_false] at hs
          rcases hs with rfl | rfl <;> simp
      · exact ⟨_, getLast?_cons3_append2 _ _ _ _ _ _, rfl, rfl⟩
    · simp only [if_neg he]
      constructor
      · intro s hs
        rcases List.mem_cons.mp hs with rfl | hs
        · simp
        rcases List.mem_cons.mp hs with rfl | hs
        · simp
        rcases List.mem_cons.mp hs with rfl | hs
        · simp
        rcases List.mem_append.mp hs with hs | hs
        · obtain ⟨ha, hst, -, -⟩ := (run_lines_fields env.duration env.lines _ 0).1 s hs
          rw [ha, hst]
          simp
        · simp only [List.mem_cons, List.not_mem_nil, or_false] at hs
          rcases hs with rfl | rfl <;> simp
      · exact ⟨_, getLast?_cons3_append2 _ _ _ _ _ _, rfl, rfl⟩

/-- Witness for C6: instantiated on a concrete successful run; the first
published snapshot (`starting`, `active`) satisfies the equivalence and the
run ends `idle`/inactive. -/
theorem convert_video_active_iff_witness :
    (p1Fix.active = true ↔ (p1Fix.status = "starting" ∨ p1Fix.status = "converting")) ∧
    (∃ l, ((convert_video initialStatus "a.avi" envOkNoLines).1).getLast? = some l ∧
      l.status = "idle" ∧ l.active = false) :=
  ⟨(convert_video_active_iff initialStatus "a.avi" envOkNoLines).1 p1Fix
      (by with_unfolding_all decide),
    (convert_video_active_iff initialStatus "a.avi" envOkNoLines).2⟩

/-! ## C10: idle snapshots are fully reset -/

/-- C10: every published snapshot whose `status` is `idle` — the initial one
published by `main` (`initialStatus`) and the terminal one after every
completed or failed conversion — has `active = false`, `current_file = none`
and `progress = 0`; in particular a successful run ends with a `completed`
snapshot at progress 100 immediately followed by the terminal `idle` snapshot
at progress 0. -/
theorem convert_video_idle_resets (prev : ConversionStatus) (fn : String) (env : RunEnv) :
    (∀ s ∈ (convert_video prev fn env).1,
      s.status = "idle" →
        s.active = false ∧ s.current_file = none ∧ s.progress = 0) ∧
    (initialStatus.status = "idle" ∧ initialStatus.active = false ∧
      initialStatus.current_file = none ∧ initialStatus.progress = 0) ∧
    (env.launch_ok = true → env.exit_code = 0 →
      ∃ pre c i, (convert_video prev fn env).1 = pre ++ [c, i] ∧
        c.status = "completed" ∧ c.progress = 100 ∧
        i.status = "idle" ∧ i.progress = 0) := by
  refine ⟨?_, ⟨rfl, rfl, rfl, rfl⟩, ?_⟩
  · unfold convert_video
    cases hl : env.launch_ok with
    | false =>
      intro s hs
      simp only [Bool.false_eq_true, if_false, List.mem_cons, List.not_mem_nil,
        or_false] at hs
      rcases hs with rfl | rfl | rfl | rfl
      · intro h; simp at h
      · intro h; simp at h
      · intro h; simp at h
      · exact fun _ => ⟨rfl, rfl, rfl⟩
    | true =>
      simp only [if_true]
      by_cases he : env.exit_code = 0
      · simp only [if_pos he]
        intro s hs
        rcases List.mem_cons.mp hs with rfl | hs
        · intro h; simp at h
        rcases List.mem_cons.mp hs with rfl | hs
        · intro h; simp at h
        rcases List.mem_cons.mp hs with rfl | hs
        · intro h; simp at h
        rcases List.mem_append.mp hs with hs | hs
        · obtain ⟨-, hst, -, -⟩ := (run_lines_fields env.duration env.lines _ 0).1 s hs
          rw [hst]
          intro h; simp at h
        · simp only [List.mem_cons, List.not_mem_nil, or_false] at hs
          rcases hs with rfl | rfl
          · intro h; simp at h
          · exact fun _ => ⟨rfl, rfl, rfl⟩
      · simp only [if_neg he]
        intro s hs
        rcases List.mem_cons.mp hs with rfl | hs
        · intro h; simp at h
        rcases List.mem_cons.mp hs with rfl | hs
        · intro h; simp at h
        rcases List.mem_cons.mp hs with rfl | hs
        · intro h; simp at h
        rcases List.mem_append.mp hs with hs | hs
        · obtain ⟨-, hst, -, -⟩ := (run_lines_fields env.duration env.lines _ 0).1 s hs
          rw [hst]
          intro h; simp at h
        · simp only [List.mem_cons, List.not_mem_nil, or_false] at hs
          rcases hs with rfl | rfl
          · intro h; simp at h
          · exact fun _ => ⟨rfl, rfl, rfl⟩
  · intro hl he
    unfold convert_video
    rw [hl, he]
    simp only [if_true, if_pos rfl]
    have hsplit : ∀ (a b c x y : ConversionStatus) (tr : List ConversionStatus),
        a :: b :: c :: (tr ++ [x, y]) = (a :: b :: c :: tr) ++ [x, y] :=
      fun a b c x y tr => by simp
    exact ⟨_, _, _, hsplit _ _ _ _ _ _, rfl, rfl, rfl, rfl⟩

/-- Witness for C10: on a concrete successful run starting from
`initialStatus`, the terminal idle snapshot (which equals `initialStatus`)
has the reset fields, and the run ends `completed`(100) then `idle`(0). -/
theorem convert_video_idle_resets_witness :
    (initialStatus.active = false ∧ initialStatus.current_file = none ∧
      initialStatus.progress = 0) ∧
    ∃ pre c i, (convert_video initialStatus "a.avi" envOkNoLines).1 = pre ++ [c, i] ∧
      c.status = "completed" ∧ c.progress = 100 ∧
      i.status = "idle" ∧ i.progress = 0 :=
  ⟨(convert_video_idle_resets initialStatus "a.avi" envOkNoLines).1 initialStatus
      (by with_unfolding_all decide) rfl,
    (convert_video_idle_resets initialStatus "a.avi" envOkNoLines).2.2 rfl rfl⟩

/-! ## C7: unknown duration degrades progress and eta only -/

/-- C7: when the duration probe failed (`duration = none`) and the encoder
was launched, no published snapshot ever carries an `eta`, every snapshot
published during the run (status `starting` or `converting`) has progress 0,
and if the encoder exits 0 the run still returns true and publishes a
`completed` snapshot.  (Per the spec's own transition table, the `completed`
snapshot itself carries progress 100.) -/
theorem convert_video_no_duration (prev : ConversionStatus) (fn : String) (env : RunEnv)
    (hd : env.duration = none) (hl : env.launch_ok = true) :
    (∀ s ∈ (convert_video prev fn env).1, s.eta = none) ∧
    (∀ s ∈ (convert_video prev fn env).1,
      (s.status = "starting" ∨ s.status = "converting") → s.progress = 0) ∧
    (env.exit_code = 0 → (convert_video prev fn env).2 = true ∧
      ∃ s ∈ (convert_video prev fn env).1, s.status = "completed") := by
  unfold convert_video
  rw [hl, hd]
  simp only [if_true]
  by_cases he : env.exit_code = 0
  · simp only [if_pos he]
    refine ⟨?_, ?_, ?_⟩
    · intro s hs
      rcases List.mem_cons.mp hs with rfl | hs
      · rfl
      rcases List.mem_cons.mp hs with rfl | hs
      · rfl
      rcases List.mem_cons.mp hs with rfl | hs
      · rfl
      rcases List.mem_append.mp hs with hs | hs
      · exact ((run_lines_none_dur env.lines _ 0).1 s hs).2
      · simp only [List.mem_cons, List.not_mem_nil, or_false] at hs
        rcases hs with rfl | rfl
        · exact ((run_lines_none_dur env.lines _ 0).2).2
        · exact ((run_lines_none_dur env.lines _ 0).2).2
    · intro s hs
      rcases List.mem_cons.mp hs with rfl | hs
      · exact fun _ => rfl
      rcases List.mem_cons.mp hs with rfl | hs
      · exact fun _ => rfl
      rcases List.mem_cons.mp hs with rfl | hs
      · exact fun _ => rfl
      rcases List.mem_append.mp hs with hs | hs
      · exact fun _ => ((run_lines_none_dur env.lines _ 0).1 s hs).1
      · simp only [List.mem_cons, List.not_mem_nil, or_false] at hs
        rcases hs with rfl | rfl
        · rintro (h | h) <;> simp at h
        · exact fun _ => rfl
    · intro _
      refine ⟨?_, ?_⟩
      · first
          | rfl
          | trivial
      · exact ⟨_, List.mem_cons_of_mem _ (List.mem_cons_of_mem _ (List.mem_cons_of_mem _
          (List.mem_append_right _ (List.mem_cons_self _ _)))), rfl⟩
  · simp only [if_neg he]
    refine ⟨?_, ?_, fun h => absurd h he⟩
    · intro s hs
      rcases List.mem_cons.mp hs with rfl | hs
      · rfl
      rcases List.mem_cons.mp hs with rfl | hs
      · rfl
      rcases List.mem_cons.mp hs with rfl | hs
      · rfl
      rcases List.mem_append.mp hs with hs | hs
      · exact ((run_lines_none_dur env.lines _ 0).1 s hs).2
      · simp only [List.mem_cons, List.not_mem_nil, or_false] at hs
        rcases hs with rfl | rfl
        · exact ((run_lines_none_dur env.lines _ 0).2).2
        · exact ((run_lines_none_dur env.lines _ 0).2).2
    · intro s hs
      rcases List.mem_cons.mp hs with rfl | hs
      · exact fun _ => rfl
      rcases List.mem_cons.mp hs with rfl | hs
      · exact fun _ => rfl
      rcases List.mem_cons.mp hs with rfl | hs
      · exact fun _ => rfl
      rcases List.mem_append.mp hs with hs | hs
      · exact fun _ => ((run_lines_none_dur env.lines _ 0).1 s hs).1
      · simp only [List.mem_cons, List.not_mem_nil, or_false] at hs
        rcases hs with rfl | rfl
        · rintro (h | h) <;> simp at h
        · exact fun _ => rfl

/-- Witness for C7: a concrete run with a failed duration probe, a progress
stream reporting 5 encoded seconds and a speed line, and exit code 0. -/
theorem convert_video_no_duration_witness :
    p1Fix.eta = none ∧ p1Fix.progress = 0 ∧
    (convert_video initialStatus "a.avi" envNoDur).2 = true ∧
    ∃ s ∈ (convert_video initialStatus "a.avi" envNoDur).1, s.status = "completed" :=
  ⟨(convert_video_no_duration initialStatus "a.avi" envNoDur rfl rfl).1 p1Fix
      (by with_unfolding_all decide),
    (convert_video_no_duration initialStatus "a.avi" envNoDur rfl rfl).2.1 p1Fix
      (by with_unfolding_all decide) (Or.inl rfl),
    ((convert_video_no_duration initialStatus "a.avi" envNoDur rfl rfl).2.2 rfl).1,
    ((convert_video_no_duration initialStatus "a.avi" envNoDur rfl rfl).2.2 rfl).2⟩

/-! ## C9: the published method values -/

/-- Counterexample to C9: on a hardware-capable host the run publishes
`method = "qsv"` — a value that is neither of the spec's enum values
`hardware` and `software` — precisely while the hardware profile is in use. -/
theorem convert_video_method_cex :
    ((convert_video initialStatus "clip.avi" envOkHW).1.map ConversionStatus.method) =
      [none, some "qsv", some "qsv", none, none] ∧
    ("qsv" : String) ≠ "hardware" ∧ ("qsv" : String) ≠ "software" :=
  ⟨by with_unfolding_all decide, by decide, by decide⟩

/-- C9 (amended): in every published snapshot the `method` field is `none`,
`"qsv"` or `"software"`; when the hardware profile is in use, the run
publishes `method = "qsv"` (the code's tag for the hardware family, not the
spec's `hardware`). -/
theorem convert_video_method_values (prev : ConversionStatus) (fn : String) (env : RunEnv)
    (hp : prev.method = none ∨ prev.method = some "qsv" ∨ prev.method = some "software") :
    (∀ s ∈ (convert_video prev fn env).1,
      s.method = none ∨ s.method = some "qsv" ∨ s.method = some "software") ∧
    (use_qsv env.probe = true →
      ∃ s ∈ (convert_video prev fn env).1, s.method = some "qsv") := by
  have hmethod2 : (some (if use_qsv env.probe = true then "qsv" else "software") :
      Option String) = some "qsv" ∨
      (some (if use_qsv env.probe = true then "qsv" else "software") :
      Option String) = some "software" := by
    by_cases hq : use_qsv env.probe = true
    · exact Or.inl (by rw [if_pos hq])
    · exact Or.inr (by rw [if_neg hq])
  constructor
  · unfold convert_video
    cases hl : env.launch_ok with
    | false =>
      intro s hs
      simp only [Bool.false_eq_true, if_false, List.mem_cons, List.not_mem_nil,
        or_false] at hs
      rcases hs with rfl | rfl | rfl | rfl
      · exact hp
      · exact Or.inr hmethod2
      · exact Or.inl rfl
      · exact Or.inl rfl
    | true =>
      simp only [if_true]
      by_cases he : env.exit_code = 0 <;>
        [simp only [if_pos he]; simp only [if_neg he]] <;>
      · intro s hs
        rcases List.mem_cons.mp hs with rfl | hs
        · exact hp
        rcases List.mem_cons.mp hs with rfl | hs
        · exact Or.inr hmethod2
        rcases List.mem_cons.mp hs with rfl | hs
        · exact Or.inr hmethod2
        rcases List.mem_append.mp hs with hs | hs
        · obtain ⟨-, -, -, hm⟩ := (run_lines_fields env.duration env.lines _ 0).1 s hs
          rw [hm]
          exact Or.inr hmethod2
        · simp only [List.mem_cons, List.not_mem_nil, or_false] at hs
          rcases hs with rfl | rfl
          · exact Or.inl rfl
          · exact Or.inl rfl
  · intro hq
    unfold convert_video
    cases hl : env.launch_ok with
    | false =>
      simp only [Bool.false_eq_true, if_false]
      exact ⟨_, List.mem_cons_of_mem _ (List.mem_cons_self _ _), by rw [if_pos hq]⟩
    | true =>
      simp only [if_true]
      by_cases he : env.exit_code = 0 <;>
        [simp only [if_pos he]; simp only [if_neg he]] <;>
      · exact ⟨_, List.mem_cons_of_mem _ (List.mem_cons_self _ _), by rw [if_pos hq]⟩

/-- Witness for the amended C9: a concrete hardware run starting from the
fully reset `initialStatus`. -/
theorem convert_video_method_values_witness :
    (initialStatus.method = none ∨ initialStatus.method = some "qsv" ∨
      initialStatus.method = some "software") ∧
    (p1Fix.method = none ∨ p1Fix.method = some "qsv" ∨ p1Fix.method = some "software") ∧
    ∃ s ∈ (convert_video initialStatus "a.avi" envOkHW).1, s.method = some "qsv" :=
  ⟨Or.inl rfl,
    (convert_video_method_values initialStatus "a.avi" envOkHW (Or.inl rfl)).1 p1Fix
      (by with_unfolding_all decide),
    (convert_video_method_values initialStatus "a.avi" envOkHW (Or.inl rfl)).2
      (by decide)⟩

/-! ## C4: published progress truncates, it does not round -/

/-- Counterexample to C4: a 10-second file whose stream reports
`out_time_ms=9960000` (9.96 s, i.e. 99.6 %).  The code publishes
`min(100, int(99.6)) = 99`, while the claimed formula
`clamp(0,100, round(99.6))` gives 100. -/
theorem convert_video_progress_round_cex :
    ((convert_video initialStatus "clip.avi" envOkPartial).1.map
      ConversionStatus.progress) = [0, 0, 0, 99, 100, 0] ∧
    (max 0 (min 100 (round ((9960000 : ℚ) / 1000000 / 10 * 100))) : ℤ) = 100 := by
  constructor
  · with_unfolding_all decide
  · have h1 : ((9960000 : ℚ) / 1000000 / 10 * 100) = 498 / 5 := by norm_num
    rw [h1, round_eq]
    have h2 : ⌊(498 / 5 + 1 / 2 : ℚ)⌋ = 100 := by
      rw [Int.floor_eq_iff]
      constructor
      · push_cast
        norm_num
      · push_cast
        norm_num
    rw [h2]
    decide

/-- C4 (amended): for every `out_time_ms=v` progress line parsed during a run
whose duration `d` is known and positive, a snapshot is published during the
converting phase whose progress is exactly
`min 100 (ratTrunc (v / 1000000 / d * 100))` — truncation toward zero, with
no lower clamp at 0. -/
theorem convert_video_progress_trunc (prev : ConversionStatus) (fn : String)
    (env : RunEnv) (d v : ℚ) (hd : env.duration = some d) (h0 : 0 < d)
    (hl : env.launch_ok = true) (hv : FFLine.outTime v ∈ env.lines) :
    ∃ s ∈ (convert_video prev fn env).1,
      s.status = "converting" ∧
      s.progress = min 100 (ratTrunc (v / 1000000 / d * 100)) := by
  unfold convert_video
  rw [hl, hd]
  simp only [if_true]
  by_cases he : env.exit_code = 0 <;>
    [simp only [if_pos he]; simp only [if_neg he]] <;>
  · obtain ⟨s, hs, hst, hpr⟩ := run_lines_outTime_pub d h0 env.lines _ 0 v hv
    exact ⟨s, List.mem_cons_of_mem _ (List.mem_cons_of_mem _ (List.mem_cons_of_mem _
      (List.mem_append_left _ hs))), hst, hpr⟩

/-- Witness for the amended C4: the concrete 99.6 % run publishes exactly
`min 100 (ratTrunc 99.6) = 99` during conversion. -/
theorem convert_video_progress_trunc_witness :
    ∃ s ∈ (convert_video initialStatus "clip2.avi" envOkPartial).1,
      s.status = "converting" ∧
      s.progress = min 100 (ratTrunc ((9960000 : ℚ) / 1000000 / 10 * 100)) :=
  convert_video_progress_trunc initialStatus "clip2.avi" envOkPartial 10 9960000
    rfl (by decide) rfl (List.mem_cons_self _ _)

/-! ## C5: progress monotonicity -/

/-- Counterexample to C5: in a successful run the terminal `idle` snapshot
resets progress to 0 right after the `completed` snapshot published 100, so
the sequence of published progress values over all status updates of one
file's conversion is not monotonically non-decreasing. -/
theorem convert_video_progress_monotone_cex :
    ((convert_video initialStatus "clip.avi" envOkNoLines).1.map
      ConversionStatus.progress) = [0, 0, 0, 100, 0] ∧
    ¬ List.Chain' (· ≤ ·)
      ((convert_video initialStatus "clip.avi" envOkNoLines).1.map
        ConversionStatus.progress) := by
  have hmap : ((convert_video initialStatus "clip.avi" envOkNoLines).1.map
      ConversionStatus.progress) = [0, 0, 0, 100, 0] := by
    with_unfolding_all decide
  refine ⟨hmap, ?_⟩
  rw [hmap]
  norm_num [List.chain'_cons, List.chain'_singleton]

/-- C5 (amended): in a successful run whose `out_time_ms` values are
non-negative and non-decreasing, every published progress value lies in
`[0, 100]`, and the published progress sequence is monotonically
non-decreasing over all snapshots except the terminal `idle` one, which
resets progress to 0. -/
theorem convert_video_progress_monotone (prev : ConversionStatus) (fn : String)
    (env : RunEnv) (hl : env.launch_ok = true) (he : env.exit_code = 0)
    (hch : List.Chain' (· ≤ ·) ((0:ℚ) :: outTimes env.lines)) :
    List.Chain' (· ≤ ·)
      (((convert_video prev fn env).1.dropLast).map ConversionStatus.progress) ∧
    ∀ s ∈ (convert_video prev fn env).1, 0 ≤ s.progress ∧ s.progress ≤ 100 := by
  unfold convert_video
  rw [hl]
  simp only [if_true, if_pos he]
  have hch0 : List.Chain' (· ≤ ·) ((0:ℚ) * 1000000 :: outTimes env.lines) := by
    rwa [zero_mul]
  have hinv := run_lines_progress_inv env.duration env.lines
    { active := true, current_file := some fn, progress := 0, speed := none,
      eta := none, status := "converting",
      method := some (if use_qsv env.probe = true then "qsv" else "software") }
    0 le_rfl hch0 le_rfl (by norm_num)
    (fun d hd hp => by
      simp only [zero_div, zero_mul]
      decide)
  constructor
  · have hsplit : ∀ (l : List ConversionStatus) (x y : ConversionStatus),
        l ++ [x, y] = (l ++ [x]) ++ [y] := fun l x y => by simp
    rw [hsplit, List.dropLast_concat]
    simp only [List.map_append, List.map_cons, List.map_nil]
    refine List.chain'_append.mpr ⟨?_, List.chain'_singleton _, ?_⟩
    · exact List.chain'_cons.mpr ⟨le_rfl, List.chain'_cons.mpr ⟨le_rfl, hinv.1⟩⟩
    · intro x hx y hy
      simp only [List.head?_cons, Option.mem_def, Option.some.injEq] at hy
      subst hy
      have hx' := List.mem_of_getLast?_eq_some hx
      rcases List.mem_cons.mp hx' with rfl | hx'
      · norm_num
      rcases List.mem_cons.mp hx' with rfl | hx'
      · norm_num
      rcases List.mem_cons.mp hx' with rfl | hx'
      · norm_num
      obtain ⟨s, hs, hsp⟩ := List.mem_map.mp hx'
      rw [← hsp]
      exact (hinv.2 s hs).2
  · intro s hs
    rcases List.mem_cons.mp hs with rfl | hs
    · exact ⟨le_rfl, by norm_num⟩
    rcases List.mem_cons.mp hs with rfl | hs
    · exact ⟨le_rfl, by norm_num⟩
    rcases List.mem_cons.mp hs with rfl | hs
    · exact ⟨le_rfl, by norm_num⟩
    rcases List.mem_append.mp hs with hs | hs
    · exact hinv.2 s hs
    · simp only [List.mem_cons, List.not_mem_nil, or_false] at hs
      rcases hs with rfl | rfl
      · exact ⟨by norm_num, le_rfl⟩
      · exact ⟨le_rfl, by norm_num⟩

/-- Witness for the amended C5: a concrete successful run with one
`out_time_ms` line (a non-decreasing, non-negative stream). -/
theorem convert_video_progress_monotone_witness :
    List.Chain' (· ≤ ·) ((0:ℚ) :: outTimes envOkPartial.lines) ∧
    List.Chain' (· ≤ ·)
      (((convert_video initialStatus "clip3.avi" envOkPartial).1.dropLast).map
        ConversionStatus.progress) :=
  ⟨List.chain'_pair.mpr (by norm_num),
    (convert_video_progress_monotone initialStatus "clip3.avi" envOkPartial rfl rfl
      (List.chain'_pair.mpr (by norm_num))).1⟩

/-! ## C8: a failed conversion is terminal for that file only -/

/-- C8: when the encoder exits non-zero or its launch raises, the run
publishes an `error` snapshot followed by an `idle` snapshot as its last two
updates and `convert_video` returns false; and the scan loop, whose per-file
metadata checks succeed, completes a pass over every candidate file
regardless of the per-file conversion outcomes — a conversion failure never
aborts the pass (in the embedding `convert_video` is total, so the loop
always proceeds to the remaining files). -/
theorem convert_video_failure_terminal (prev : ConversionStatus) (fn : String)
    (env : RunEnv) (h : env.launch_ok = false ∨ ¬ env.exit_code = 0) :
    (convert_video prev fn env).2 = false ∧
    (∃ l e i, (convert_video prev fn env).1 = l ++ [e, i] ∧
      e.status = "error" ∧ e.active = false ∧
      i.status = "idle" ∧ i.active = false) ∧
    (∀ (fs : FS) (envOf : String → RunEnv) (files : List String)
      (st : ConversionStatus),
      (∀ g ∈ files, ∃ b, needs_conversion fs g (get_output_path g) = Except.ok b) →
      ∃ st' res, scan_loop fs envOf files st = Except.ok (st', res) ∧
        res.map Prod.fst = files) := by
  refine ⟨?_, ?_, ?_⟩
  · unfold convert_video
    cases hl : env.launch_ok with
    | false => simp
    | true =>
      rcases h with h | h
      · rw [hl] at h
        exact absurd h (by decide)
      · simp only [if_true, if_neg h]
  · unfold convert_video
    have hsplit4 : ∀ (a b x y : ConversionStatus), [a, b, x, y] = [a, b] ++ [x, y] :=
      fun _ _ _ _ => rfl
    have hsplitA : ∀ (l : List ConversionStatus) (x y : ConversionStatus),
        l ++ [x, y] = l ++ [x, y] := fun _ _ _ => rfl
    cases hl : env.launch_ok with
    | false =>
      simp only [Bool.false_eq_true, if_false]
      exact ⟨_, _, _, hsplit4 _ _ _ _, rfl, rfl, rfl, rfl⟩
    | true =>
      rcases h with h | h
      · rw [hl] at h
        exact absurd h (by decide)
      · simp only [if_true, if_neg h]
        exact ⟨_, _, _, hsplitA _ _ _, rfl, rfl, rfl, rfl⟩
  · intro fs envOf files st hall
    clear h
    induction files generalizing st with
    | nil => exact ⟨st, [], rfl, rfl⟩
    | cons f rest ih =>
      obtain ⟨b, hb⟩ := hall f (List.mem_cons_self _ _)
      have hall' : ∀ g ∈ rest, ∃ b, needs_conversion fs g (get_output_path g) =
          Except.ok b := fun g hg => hall g (List.mem_cons_of_mem _ hg)
      cases b with
      | true =>
        obtain ⟨st', res, hres, hmap⟩ :=
          ih ((convert_video st (basename f) (envOf f)).1.getLastD st) hall'
        refine ⟨st', (f, some (convert_video st (basename f) (envOf f)).2) :: res, ?_, ?_⟩
        · simp only [scan_loop, hb, hres]
        · simp [hmap]
      | false =>
        obtain ⟨st', res, hres, hmap⟩ := ih st hall'
        refine ⟨st', (f, none) :: res, ?_, ?_⟩
        · simp only [scan_loop, hb, hres]
        · simp [hmap]

/-- Witness for C8: the encoder exits 1 on a concrete run (returns false),
and a one-file scan over a filesystem with no outputs completes its pass. -/
theorem convert_video_failure_terminal_witness :
    ¬ envFail.exit_code = 0 ∧
    (convert_video initialStatus "a.avi" envFail).2 = false ∧
    ∃ st' res, scan_loop fsEmpty envAll ["/input/x.avi"] initialStatus =
      Except.ok (st', res) ∧ res.map Prod.fst = ["/input/x.avi"] :=
  ⟨by decide,
    (convert_video_failure_terminal initialStatus "a.avi" envFail
      (Or.inr (by decide))).1,
    (convert_video_failure_terminal initialStatus "a.avi" envFail
      (Or.inr (by decide))).2.2 fsEmpty envAll ["/input/x.avi"] initialStatus
      (fun g _ => ⟨true, rfl⟩)⟩

/-! ## C2: a metadata failure aborts the scan pass -/

/-- Counterexample to C2: `/input/bad.avi` has an existing output but its own
`stat` raises; the scan pass over `[/input/bad.avi, /input/good.avi]` aborts
with the propagated error instead of skipping the file and continuing —
`/input/good.avi` (which needs conversion) is never examined. -/
theorem scan_loop_metadata_abort_cex :
    scan_loop fs2 envAll ["/input/bad.avi", "/input/good.avi"] initialStatus =
      Except.error () := by
  with_unfolding_all rfl

/-- C2 (amended): if reading one candidate's metadata fails during the
`needs_conversion` check, the exception propagates: the scan pass stops with
that error, and the candidates after the failing one are not examined in
that pass (the earlier candidates having been processed normally). -/
theorem scan_loop_metadata_abort (fs : FS) (envOf : String → RunEnv)
    (pre : List String) (f : String) (post : List String) (st : ConversionStatus)
    (hpre : ∀ g ∈ pre, ∃ b, needs_conversion fs g (get_output_path g) = Except.ok b)
    (hf : needs_conversion fs f (get_output_path f) = Except.error ()) :
    scan_loop fs envOf (pre ++ f :: post) st = Except.error () := by
  revert hpre
  induction pre generalizing st with
  | nil =>
    intro _
    simp only [List.nil_append]
    unfold scan_loop
    rw [hf]
  | cons g pre ih =>
    intro hpre
    obtain ⟨b, hb⟩ := hpre g (List.mem_cons_self _ _)
    have hpre' : ∀ g' ∈ pre, ∃ b, needs_conversion fs g' (get_output_path g') =
        Except.ok b := fun g' hg' => hpre g' (List.mem_cons_of_mem _ hg')
    simp only [List.cons_append]
    cases b with
    | true =>
      simp only [scan_loop, hb, ih _ hpre']
    | false =>
      simp only [scan_loop, hb, ih _ hpre']

/-- Witness for the amended C2: the concrete two-file scan aborts at the
first file, whose metadata is unreadable. -/
theorem scan_loop_metadata_abort_witness :
    needs_conversion fs2 "/input/bad.avi" (get_output_path "/input/bad.avi") =
      Except.error () ∧
    scan_loop fs2 envAll ("/input/bad.avi" :: ["/input/good.avi"]) initialStatus =
      Except.error () :=
  ⟨by with_unfolding_all rfl,
    scan_loop_metadata_abort fs2 envAll [] "/input/bad.avi" ["/input/good.avi"]
      initialStatus (fun g hg => absurd hg (List.not_mem_nil g))
      (by with_unfolding_all rfl)⟩
